import Mathlib

/-!
Verification development for the day-05 range-mapping engine
(`src/day_05/src/lib.rs`): interval data model, the six-way `overlap`
classification, `translate`, the per-table interval pipeline
(`calculate_single` / `calculate`), the recursive category-chain
resolution (`convert`, modelled with explicit fuel since the Rust
recursion has no structural decrease), the text parser (`FromStr`
implementations, with Rust strings modelled as `List Char`), and the
seed pairing of `process_part2`.

Machine integers (`usize`) are modelled as `Nat`; Rust `usize`
subtraction appears only where the surrounding branch guards make it
non-underflowing, and is modelled by truncating `Nat` subtraction.
Fallible operations (`Result`, panics) are modelled with `Except` and
`Option`.
-/

namespace Day05

/-- Errors of the day-05 parser (`enum AOCError`).  The `String` payload
of `ParseNumberError` (the formatted `ParseIntError` message) carries no
semantic content and is omitted. -/
inductive AOCError where
  | ParseNumberError
  | SeedBlockMissingError
  | MapHeaderMissingError
  | MapHeaderParseError
  | RangeParseError
deriving DecidableEq, Repr

/-- `struct SourceIdRange { start, length }`: the half-open interval
`[start, start+length)`. -/
structure SourceIdRange where
  start : Nat
  length : Nat
deriving DecidableEq, Repr

/-- `struct Range { destination_start, source_start, length }`: one mapping
rule. -/
structure Range where
  destination_start : Nat
  source_start : Nat
  length : Nat
deriving DecidableEq, Repr

/-- `struct RangeOverlap { matching, remaining }`. -/
structure RangeOverlap where
  matching : Option SourceIdRange
  remaining : List SourceIdRange
deriving DecidableEq, Repr

/-- `struct CategoryMap { source, destination, ranges }`. -/
structure CategoryMap where
  source : String
  destination : String
  ranges : List Range
deriving DecidableEq, Repr

/-- `struct Almanac { seeds, maps }`. -/
structure Almanac where
  seeds : List Nat
  maps : List CategoryMap
deriving DecidableEq, Repr

/-- `SourceIdRange::new`. -/
def SourceIdRange.new (start length : Nat) : SourceIdRange :=
  ⟨start, length⟩

/-- `impl From<usize> for SourceIdRange`: a single value as a length-1
interval. -/
def SourceIdRange.ofValue (value : Nat) : SourceIdRange :=
  ⟨value, 1⟩

/-- `Range::new`. -/
def Range.new (destination_start source_start length : Nat) : Range :=
  ⟨destination_start, source_start, length⟩

/-- `Range::overlap` (src/day_05/src/lib.rs:214-274): classifies the
position of the rule's source span relative to `source_id` via a six-way
`if` chain and splits `source_id` into a matching piece and remaining
pieces. -/
def Range.overlap (r : Range) (source_id : SourceIdRange) : RangeOverlap :=
  let range_start := r.source_start
  let range_end := r.source_start + r.length
  let range_length := r.length
  let source_id_start := source_id.start
  let source_id_end := source_id.start + source_id.length
  if range_end < source_id_start then
    { matching := none, remaining := [source_id] }
  else if range_start < source_id_start ∧ range_end ≥ source_id_start ∧
      range_end ≤ source_id_end then
    { matching := some (SourceIdRange.new source_id_start (range_end - source_id_start)),
      remaining := [SourceIdRange.new range_end (source_id_end - range_end)] }
  else if range_start < source_id_start ∧ range_end > source_id_end then
    { matching := some source_id, remaining := [] }
  else if range_start ≥ source_id_start ∧ range_end ≤ source_id_end then
    { matching := some (SourceIdRange.new range_start range_length),
      remaining :=
        (if range_start > source_id_start then
          [SourceIdRange.new source_id_start (range_start - source_id_start)]
        else []) ++
        (if range_end < source_id_end then
          [SourceIdRange.new range_end (source_id_end - range_end)]
        else []) }
  else if range_start ≤ source_id_end ∧ range_end > source_id_end then
    { matching := some (SourceIdRange.new range_start (source_id_end - range_start)),
      remaining := [SourceIdRange.new source_id_start (range_start - source_id_start)] }
  else
    { matching := none, remaining := [source_id] }

/-- `Range::translate` (src/day_05/src/lib.rs:276-279): shift a matching
piece from the rule's source span into its destination span.  Rust `usize`
subtraction is modelled by truncating `Nat` subtraction; the caller
(`calculate_single`) only passes pieces produced as `matching` by
`overlap`, for which `source_id.start ≥ source_start`. -/
def Range.translate (r : Range) (source_id : SourceIdRange) : SourceIdRange :=
  SourceIdRange.new (source_id.start - r.source_start + r.destination_start)
    source_id.length

/-- One iteration of the outer rule loop in `CategoryMap::calculate_single`:
for each still-untranslated piece push the matching part (paired with the
rule that matched it) and collect the remaining parts. -/
def overlapStep (range : Range)
    (st : List (SourceIdRange × Range) × List SourceIdRange) :
    List (SourceIdRange × Range) × List SourceIdRange :=
  (st.1 ++ st.2.filterMap (fun sid => (range.overlap sid).matching.map (fun m => (m, range))),
   st.2.flatMap (fun sid => (range.overlap sid).remaining))

/-- `CategoryMap::calculate_single` (src/day_05/src/lib.rs:136-166):
thread the input interval through every rule, translate the matched
pieces, append the untouched remainder, and drop zero-length pieces. -/
def CategoryMap.calculate_single (m : CategoryMap) (source_id : SourceIdRange) :
    List SourceIdRange :=
  let st := m.ranges.foldl (fun st range => overlapStep range st) ([], [source_id])
  ((st.1.map (fun p => p.2.translate p.1)) ++ st.2).filter
    (fun sid => decide (sid.length > 0))

/-- `CategoryMap::calculate` (src/day_05/src/lib.rs:129-134). -/
def CategoryMap.calculate (m : CategoryMap) (source_ids : List SourceIdRange) :
    List SourceIdRange :=
  source_ids.flatMap (fun sid => m.calculate_single sid)

/-- Outcome of `Almanac::convert` under a fuel bound.  The Rust recursion
(src/day_05/src/lib.rs:73-97) has no structural decrease, so it is modelled
with explicit fuel; `outOfFuel` marks runs the bound cut short (possible
non-termination), `missing` is the Rust `None` ("We should never end up
here"), and `ok` is `Some`. -/
inductive ConvertRes where
  | ok (ids : List SourceIdRange)
  | missing
  | outOfFuel
deriving DecidableEq, Repr

/-- `Almanac::convert` (src/day_05/src/lib.rs:73-97) with fuel: first look
for a map matching the exact (source, destination) pair, else step through
the first map whose source matches and recurse on its destination. -/
def Almanac.convertFuel (a : Almanac) : Nat → List SourceIdRange → String → String → ConvertRes
  | 0, _, _, _ => ConvertRes.outOfFuel
  | fuel + 1, source_id, source, destination =>
    match a.maps.find? (fun m => m.source == source && m.destination == destination) with
    | some m => ConvertRes.ok (m.calculate source_id)
    | none =>
      match a.maps.find? (fun m => m.source == source) with
      | some m => a.convertFuel fuel (m.calculate source_id) m.destination destination
      | none => ConvertRes.missing

/-- The categories visited by the chain resolution of `convert`, in order,
within the given fuel: the start category, then the destinations followed
through the first map whose source matches, stopping at an exact
(source, destination) hit or at a category with no outgoing map. -/
def Almanac.reachedCats (a : Almanac) : Nat → String → String → List String
  | 0, _, _ => []
  | fuel + 1, source, destination =>
    match a.maps.find? (fun m => m.source == source && m.destination == destination) with
    | some _ => [source]
    | none =>
      match a.maps.find? (fun m => m.source == source) with
      | some m => source :: a.reachedCats fuel m.destination destination
      | none => [source]

/-- Rust `slice::chunks(2)`: non-overlapping chunks of size 2, the last
one possibly of size 1. -/
def chunksTwo : List Nat → List (List Nat)
  | [] => []
  | [a] => [[a]]
  | a :: b :: rest => [a, b] :: chunksTwo rest

/-- The seed-pairing stage of `process_part2` (src/day_05/src/lib.rs:322-330):
each chunk must match `&[start, length]`; any other chunk shape hits the
`panic!("Unexpected chunk size")` arm, modelled as `none`. -/
def seedRangesPart2 (seeds : List Nat) : Option (List SourceIdRange) :=
  (chunksTwo seeds).mapM (fun chunk =>
    match chunk with
    | [start, length] => some (SourceIdRange.mk start length)
    | _ => none)

/-- `l` begins with the pattern `pat` (Rust's slice pattern check used by
`str::split`). -/
def leadsWith : List Char → List Char → Bool
  | [], _ => true
  | _ :: _, [] => false
  | a :: as, b :: bs => a == b && leadsWith as bs

/-- Worker for `splitSeq`.  Each step consumes at least one character, so
running it with fuel `s.length` never hits the fuel-0 fallback for the
suffix actually processed; fuel keeps the recursion structural (hence
kernel-reducible). -/
def splitSepFuel (sep : List Char) : Nat → List Char → List Char → List (List Char)
  | 0, acc, _ => [acc]
  | _ + 1, acc, [] => [acc]
  | fuel + 1, acc, c :: rest =>
    if leadsWith sep (c :: rest) then
      acc :: splitSepFuel sep fuel [] (rest.drop (sep.length - 1))
    else
      splitSepFuel sep fuel (acc ++ [c]) rest

/-- Rust `str::split(pattern)` for a non-empty string pattern:
non-overlapping left-to-right split; always yields at least one piece
(the empty string splits to `[""]`). -/
def splitSeq (sep s : List Char) : List (List Char) :=
  splitSepFuel sep s.length [] s

/-- ASCII whitespace, modelling the characters relevant to these inputs
for Rust `char::is_whitespace`. -/
def isWsChar (c : Char) : Bool :=
  c == ' ' || c == '\n' || c == '\t' || c == '\r'

/-- Rust `str::trim`. -/
def trimChars (s : List Char) : List Char :=
  ((s.dropWhile isWsChar).reverse.dropWhile isWsChar).reverse

/-- Rust `str::split_once(c)`: split at the first occurrence of `c`,
`none` when `c` does not occur. -/
def splitOnceChar (c : Char) : List Char → Option (List Char × List Char)
  | [] => none
  | a :: rest =>
    if a == c then some ([], rest)
    else (splitOnceChar c rest).map (fun p => (a :: p.1, p.2))

/-- Rust `str::splitn(n, c)`: like split, but at most `n` pieces, the last
keeping the rest of the string. -/
def splitNChar : Nat → Char → List Char → List (List Char)
  | 0, _, _ => []
  | 1, _, s => [s]
  | n + 2, c, s =>
    match splitOnceChar c s with
    | none => [s]
    | some (l, rs) => l :: splitNChar (n + 1) c rs

/-- Rust `str::parse::<usize>()` restricted to plain decimal digit strings:
`some` exactly on non-empty all-digit input.  (The `usize` overflow failure
and the optional leading sign of the Rust parser play no role in the
claims and are not modelled.) -/
def parseNatChars (s : List Char) : Option Nat :=
  if s.isEmpty then none
  else if s.all (fun c => c.isDigit) then
    some (s.foldl (fun acc c => acc * 10 + (c.toNat - 48)) 0)
  else none

/-- `extract_part` inside `impl FromStr for Range`
(src/day_05/src/lib.rs:288-294). -/
def extract_part (parts : List (List Char)) (id : Nat) : Except AOCError Nat :=
  match parts[id]? with
  | none => Except.error AOCError.RangeParseError
  | some p =>
    match parseNatChars p with
    | some n => Except.ok n
    | none => Except.error AOCError.ParseNumberError

/-- `impl FromStr for Range` (src/day_05/src/lib.rs:282-301). -/
def Range.fromStr (s : List Char) : Except AOCError Range := do
  let parts := splitNChar 3 ' ' (trimChars s)
  let destination_start ← extract_part parts 0
  let source_start ← extract_part parts 1
  let length ← extract_part parts 2
  Except.ok (Range.new destination_start source_start length)

/-- `impl FromStr for CategoryMap` (src/day_05/src/lib.rs:169-197): first
line is the `<source>-to-<destination> map:` header, the rest are rules. -/
def CategoryMap.fromStr (s : List Char) : Except AOCError CategoryMap :=
  match splitSeq ['\n'] s with
  | [] => Except.error AOCError.MapHeaderMissingError
  | header :: lines =>
    match splitOnceChar ' ' header with
    | none => Except.error AOCError.MapHeaderParseError
    | some (mapping_info, _) =>
      match (splitNChar 3 '-' mapping_info).head?, (splitNChar 3 '-' mapping_info).getLast? with
      | some source, some destination => do
        let ranges ← lines.mapM Range.fromStr
        Except.ok ⟨String.mk source, String.mk destination, ranges⟩
      | _, _ => Except.error AOCError.MapHeaderParseError

/-- `impl FromStr for Almanac` (src/day_05/src/lib.rs:100-126): blocks are
separated by blank lines; the first block is the seed list (skipping the
`seeds:` token), the rest parse as category maps. -/
def Almanac.fromStr (s : List Char) : Except AOCError Almanac :=
  match splitSeq ['\n', '\n'] s with
  | [] => Except.error AOCError.SeedBlockMissingError
  | seed_string :: blocks => do
    let seeds ← ((splitSeq [' '] (trimChars seed_string)).drop 1).mapM (fun w =>
      match parseNatChars w with
      | some n => Except.ok n
      | none => Except.error AOCError.ParseNumberError)
    let maps ← blocks.mapM CategoryMap.fromStr
    Except.ok ⟨seeds, maps⟩

/-- The interval `[a, b)` written by its endpoints, as the spec's six-case
description of `overlap` speaks of intervals. -/
def mkIv (a b : Nat) : SourceIdRange :=
  ⟨a, b - a⟩

/-- The `overlap` decomposition as the specification words it (spec §4.1,
six disjoint geometric cases ordered left to right), written independently
of the implementation to compare against `Range.overlap`. -/
def overlapSpec (r : Range) (iv : SourceIdRange) : RangeOverlap :=
  let rule_start := r.source_start
  let rule_end := r.source_start + r.length
  let iv_start := iv.start
  let iv_end := iv.start + iv.length
  -- case 1: rule entirely left of the interval
  if rule_end < iv_start then
    { matching := none, remaining := [iv] }
  -- case 2: rule overlaps the interval's left edge (boundary touch included)
  else if rule_start < iv_start ∧ rule_end ≥ iv_start ∧ rule_end ≤ iv_end then
    { matching := some (mkIv iv_start rule_end), remaining := [mkIv rule_end iv_end] }
  -- case 3: rule strictly contains the interval
  else if rule_start < iv_start ∧ rule_end > iv_end then
    { matching := some iv, remaining := [] }
  -- case 4: rule fully inside the interval
  else if rule_start ≥ iv_start ∧ rule_end ≤ iv_end then
    { matching := some (mkIv rule_start rule_end),
      remaining :=
        (if rule_start > iv_start then [mkIv iv_start rule_start] else []) ++
        (if rule_end < iv_end then [mkIv rule_end iv_end] else []) }
  -- case 5: rule overlaps the interval's right edge
  else if rule_start ≤ iv_end ∧ rule_end > iv_end then
    { matching := some (mkIv rule_start iv_end), remaining := [mkIv iv_start rule_start] }
  -- case 6: rule entirely right of the interval
  else
    { matching := none, remaining := [iv] }

/-- All pieces an overlap result produces: the matching piece (when
present) together with the remaining pieces. -/
def piecesOf (o : RangeOverlap) : List SourceIdRange :=
  o.matching.toList ++ o.remaining

/-- `v` lies in the half-open interval denoted by `iv`. -/
def memIv (v : Nat) (iv : SourceIdRange) : Prop :=
  iv.start ≤ v ∧ v < iv.start + iv.length

instance (v : Nat) (iv : SourceIdRange) : Decidable (memIv v iv) := by
  unfold memIv
  exact inferInstance

/-! ## Theorems -/

/-- C3: Six-case overlap classification: `Range::overlap` computes exactly
the matching/remaining decomposition described by the spec's six ordered
geometric cases (in particular, on a left-edge overlap — rule starting
before the interval with the rule end inside it, boundary touch included —
the matching piece is `[interval.start, rule.end)` and the single
remaining piece is `[rule.end, interval.end)`). -/
theorem overlap_eq_sixCaseSpec (r : Range) (sid : SourceIdRange) :
    r.overlap sid = overlapSpec r sid := by
  simp only [Range.overlap, overlapSpec, mkIv, SourceIdRange.new]
  split_ifs <;> simp [RangeOverlap.mk.injEq, SourceIdRange.mk.injEq]

/-- C4: Translate correctness: for an interval fully inside the rule's
source span, `translate` shifts the start by
`destination_start - source_start` (stated additively, which shows the
`usize` subtraction cannot underflow) and preserves the length. -/
theorem translate_correct (r : Range) (sid : SourceIdRange)
    (h1 : r.source_start ≤ sid.start)
    (_h2 : sid.start + sid.length ≤ r.source_start + r.length) :
    (r.translate sid).start = sid.start - r.source_start + r.destination_start ∧
    (r.translate sid).start + r.source_start = sid.start + r.destination_start ∧
    (r.translate sid).length = sid.length := by
  refine ⟨rfl, ?_, rfl⟩
  simp only [Range.translate, SourceIdRange.new]
  omega

/-- Witness for C4 at the canonical example rule `52 50 48` and seed 79. -/
theorem translate_correct_witness :
    ((Range.new 52 50 48).translate ⟨79, 1⟩).start = 79 - 50 + 52 ∧
    ((Range.new 52 50 48).translate ⟨79, 1⟩).start + 50 = 79 + 52 ∧
    ((Range.new 52 50 48).translate ⟨79, 1⟩).length = 1 :=
  translate_correct (Range.new 52 50 48) ⟨79, 1⟩ (by decide) (by decide)

/-- C5: every matching piece produced by `overlap` lies inside the rule's
source span, which is exactly the precondition `translate` needs for its
unsigned subtraction. -/
theorem overlap_matching_in_rule (r : Range) (sid mm : SourceIdRange)
    (h : (r.overlap sid).matching = some mm) :
    r.source_start ≤ mm.start ∧
    mm.start + mm.length ≤ r.source_start + r.length := by
  simp only [Range.overlap, SourceIdRange.new] at h
  split_ifs at h <;> (try dsimp only at h)
  all_goals
    first
    | exact Option.noConfusion h
    | (injection h with h; subst h; dsimp only; omega)
    | (injection h with h; subst h; omega)

/-- Witness for C5: the rule `0 10 2` against the interval `[10, 20)`
matches the piece `[10, 12)`, which lies inside the rule's span. -/
theorem overlap_matching_in_rule_witness :
    (Range.new 0 10 2).source_start ≤ (SourceIdRange.mk 10 2).start ∧
    (SourceIdRange.mk 10 2).start + (SourceIdRange.mk 10 2).length ≤
      (Range.new 0 10 2).source_start + (Range.new 0 10 2).length :=
  overlap_matching_in_rule (Range.new 0 10 2) ⟨10, 10⟩ ⟨10, 2⟩ (by decide)

/-- C2 counterexample: for the rule with source span `[5, 10)` and the
positive-length interval `[10, 20)`, `overlap` emits the zero-length
matching piece `[10, 10)` (an exact boundary touch), so zero-length
intervals do appear in `overlap` output. -/
theorem overlap_emits_zero_length :
    (0 : Nat) < (SourceIdRange.mk 10 10).length ∧
    (Range.new 0 5 5).overlap ⟨10, 10⟩ =
      { matching := some ⟨10, 0⟩, remaining := [⟨10, 10⟩] } ∧
    (SourceIdRange.mk 10 0).length = 0 := by
  decide

/-- C2 (amended): `calculate_single` and `calculate` never emit a
zero-length interval (their final filter drops them), although `overlap`
itself can produce zero-length pieces at exact boundary touches. -/
theorem calculate_no_zero_length (m : CategoryMap) (sid : SourceIdRange)
    (sids : List SourceIdRange) (p q : SourceIdRange)
    (hp : p ∈ m.calculate_single sid) (hq : q ∈ m.calculate sids) :
    0 < p.length ∧ 0 < q.length := by
  constructor
  · simp only [CategoryMap.calculate_single, List.mem_filter,
      decide_eq_true_eq] at hp
    exact hp.2
  · simp only [CategoryMap.calculate, List.mem_flatMap] at hq
    obtain ⟨sid', _, hq2⟩ := hq
    simp only [CategoryMap.calculate_single, List.mem_filter,
      decide_eq_true_eq] at hq2
    exact hq2.2

/-- Witness for C2 (amended): the empty table maps `[0, 5)` to itself, a
member of both outputs, and it has positive length. -/
theorem calculate_no_zero_length_witness :
    0 < (SourceIdRange.mk 0 5).length ∧ 0 < (SourceIdRange.mk 0 5).length :=
  calculate_no_zero_length ⟨"a", "b", []⟩ ⟨0, 5⟩ [⟨0, 5⟩] ⟨0, 5⟩ ⟨0, 5⟩
    (by decide) (by decide)

/-- C1: Overlap completeness: the matching piece (if present) together
with the remaining pieces of `overlap(R, I)` reconstruct `I` exactly —
pairwise disjoint, each inside `I`, union equal to `I`, and lengths
summing to `I.length`. -/
theorem overlap_complete (r : Range) (sid : SourceIdRange) :
    List.Pairwise (fun a b => ∀ v : Nat, memIv v a → memIv v b → False)
      (piecesOf (r.overlap sid)) ∧
    (∀ p ∈ piecesOf (r.overlap sid),
      sid.start ≤ p.start ∧ p.start + p.length ≤ sid.start + sid.length) ∧
    (∀ v : Nat, memIv v sid ↔ ∃ p ∈ piecesOf (r.overlap sid), memIv v p) ∧
    ((piecesOf (r.overlap sid)).map SourceIdRange.length).sum = sid.length := by
  simp only [Range.overlap, piecesOf, SourceIdRange.new]
  split_ifs <;>
    simp [memIv, List.pairwise_cons, Option.toList] <;>
    and_intros <;> (intros; omega)

/-- A rule whose source span does not contain `v` leaves the length-1
interval `[v, v+1)` intact: the remaining list is the interval itself and
any matching piece (a boundary touch) has length 0. -/
theorem overlap_uncovered (r : Range) (v : Nat)
    (h : ¬(r.source_start ≤ v ∧ v < r.source_start + r.length)) :
    (r.overlap ⟨v, 1⟩).remaining = [⟨v, 1⟩] ∧
    ∀ mm, (r.overlap ⟨v, 1⟩).matching = some mm → mm.length = 0 := by
  simp only [Range.overlap, SourceIdRange.new]
  split_ifs <;> refine ⟨?_, fun mm hmm => ?_⟩ <;>
    first
    | rfl
    | exact hmm.elim
    | (injection hmm with hmm; subst hmm; dsimp only; omega)
    | (simp only [List.nil_append, List.append_nil, List.cons.injEq,
        SourceIdRange.mk.injEq, and_true, true_and]; omega)
    | (exfalso; omega)

/-- Folding the rule loop of `calculate_single` over rules that all miss
`v` keeps the remaining list at `[v, v+1)` and only accumulates
zero-length matching pieces. -/
theorem foldl_uncovered (v : Nat) (l : List Range)
    (h : ∀ r ∈ l, ¬(r.source_start ≤ v ∧ v < r.source_start + r.length)) :
    ∀ ovs : List (SourceIdRange × Range),
      ∃ extra, l.foldl (fun st range => overlapStep range st) (ovs, [⟨v, 1⟩]) =
        (ovs ++ extra, [⟨v, 1⟩]) ∧ ∀ p ∈ extra, p.1.length = 0 := by
  induction l with
  | nil => exact fun ovs => ⟨[], by simp, by simp⟩
  | cons r rest ih =>
    intro ovs
    have hr := overlap_uncovered r v (h r (by simp))
    have hstep : overlapStep r (ovs, [⟨v, 1⟩]) =
        (ovs ++ ((r.overlap ⟨v, 1⟩).matching.map (fun m => (m, r))).toList, [⟨v, 1⟩]) := by
      rcases hm : (r.overlap ⟨v, 1⟩).matching with _ | mm <;>
        simp [overlapStep, hr.1, hm]
    obtain ⟨extra, heq, hz⟩ := ih (fun q hq => h q (by simp [hq]))
      (ovs ++ ((r.overlap ⟨v, 1⟩).matching.map (fun m => (m, r))).toList)
    refine ⟨((r.overlap ⟨v, 1⟩).matching.map (fun m => (m, r))).toList ++ extra, ?_, ?_⟩
    · simp only [List.foldl_cons, hstep, heq, List.append_assoc]
    · intro p hp
      rcases List.mem_append.mp hp with hp1 | hp2
      · rcases hm : (r.overlap ⟨v, 1⟩).matching with _ | mm
        · simp [hm] at hp1
        · simp [hm] at hp1
          subst hp1
          exact hr.2 mm hm
      · exact hz p hp2

/-- C6: Pass-through identity: a value `v` (as the length-1 interval
`[v, v+1)`) covered by no rule of the table is returned unchanged by
`calculate_single`. -/
theorem calculate_single_uncovered (m : CategoryMap) (v : Nat)
    (h : ∀ r ∈ m.ranges, ¬(r.source_start ≤ v ∧ v < r.source_start + r.length)) :
    m.calculate_single ⟨v, 1⟩ = [⟨v, 1⟩] := by
  obtain ⟨extra, heq, hz⟩ := foldl_uncovered v m.ranges h []
  simp only [CategoryMap.calculate_single, heq]
  have hnil : (extra.map (fun p => p.2.translate p.1)).filter
      (fun sid => decide (sid.length > 0)) = [] := by
    refine List.filter_eq_nil_iff.mpr ?_
    intro x hx
    obtain ⟨p, hp, hpx⟩ := List.mem_map.mp hx
    subst hpx
    simp [Range.translate, SourceIdRange.new, hz p hp]
  simp [List.filter_append, hnil]

/-- Witness for C6: value 10 is covered by neither rule of the example
`seed-to-soil` table (`50 98 2`, `52 50 48`) and maps to itself. -/
theorem calculate_single_uncovered_witness :
    (CategoryMap.mk "seed" "soil" [Range.new 50 98 2, Range.new 52 50 48]).calculate_single
      ⟨10, 1⟩ = [⟨10, 1⟩] :=
  calculate_single_uncovered
    (CategoryMap.mk "seed" "soil" [Range.new 50 98 2, Range.new 52 50 48]) 10 (by decide)

/-- Every element of `filterMap f l` being present (all `f x` are `some`)
means no element is dropped. -/
theorem filterMap_length_of_isSome {α β : Type} (f : α → Option β) :
    ∀ l : List α, (∀ x ∈ l, (f x).isSome) → (l.filterMap f).length = l.length := by
  intro l
  induction l with
  | nil => intro _; rfl
  | cons x xs ih =>
    intro hall
    obtain ⟨y, hy⟩ := Option.isSome_iff_exists.mp (hall x (by simp))
    simp [List.filterMap_cons, hy, ih (fun z hz => hall z (by simp [hz]))]

/-- Chain resolution returns `missing` exactly when some reached category
has no outgoing map (given the run was not cut short by fuel). -/
theorem convert_missing_aux (a : Almanac) :
    ∀ (fuel : Nat) (ids : List SourceIdRange) (src dst : String),
    a.convertFuel fuel ids src dst ≠ ConvertRes.outOfFuel →
    (a.convertFuel fuel ids src dst = ConvertRes.missing ↔
      ∃ c ∈ a.reachedCats fuel src dst, ∀ m ∈ a.maps, m.source ≠ c) := by
  intro fuel
  induction fuel with
  | zero => intro ids src dst hf; exact absurd rfl hf
  | succ fuel ih =>
    intro ids src dst hf
    rcases hex : a.maps.find? (fun m => m.source == src && m.destination == dst) with _ | m
    · rcases hsrc : a.maps.find? (fun m => m.source == src) with _ | m2
      · simp only [Almanac.convertFuel, Almanac.reachedCats, hex, hsrc]
        have hnone := List.find?_eq_none.mp hsrc
        constructor
        · intro _
          refine ⟨src, by simp, fun m' hm' => ?_⟩
          have := hnone m' hm'
          simpa [beq_iff_eq] using this
        · intro _; trivial
      · have hm2 : m2 ∈ a.maps := List.mem_of_find?_eq_some hsrc
        have hm2s : m2.source = src := by
          have := List.find?_some hsrc
          simpa [beq_iff_eq] using this
        simp only [Almanac.convertFuel, Almanac.reachedCats, hex, hsrc] at hf ⊢
        rw [ih _ _ _ hf]
        constructor
        · rintro ⟨c, hc, hp⟩
          exact ⟨c, List.mem_cons_of_mem _ hc, hp⟩
        · rintro ⟨c, hc, hp⟩
          rcases List.mem_cons.mp hc with rfl | hc'
          · exact absurd hm2s (hp m2 hm2)
          · exact ⟨c, hc', hp⟩
    · have hm : m ∈ a.maps := List.mem_of_find?_eq_some hex
      have hms : m.source = src := by
        have := List.find?_some hex
        simp only [Bool.and_eq_true, beq_iff_eq] at this
        exact this.1
      simp only [Almanac.convertFuel, Almanac.reachedCats, hex]
      constructor
      · intro hcon; exact ConvertRes.noConfusion hcon
      · rintro ⟨c, hc, hp⟩
        rcases List.mem_singleton.mp hc
        exact absurd hms (hp m hm)

/-- C7: Missing-mapping error: when the run is not cut short by fuel,
`convert` signals the missing-mapping failure (`None` in the Rust code)
exactly when the chain reaches a category with no outgoing table, and when
every reached category has an outgoing table it returns a result. -/
theorem convert_missing_characterization (a : Almanac) (fuel : Nat)
    (ids : List SourceIdRange) (src dst : String)
    (hf : a.convertFuel fuel ids src dst ≠ ConvertRes.outOfFuel) :
    (a.convertFuel fuel ids src dst = ConvertRes.missing ↔
      ∃ c ∈ a.reachedCats fuel src dst, ∀ m ∈ a.maps, m.source ≠ c) ∧
    ((∀ c ∈ a.reachedCats fuel src dst, ∃ m ∈ a.maps, m.source = c) →
      ∃ out, a.convertFuel fuel ids src dst = ConvertRes.ok out) := by
  have hiff := convert_missing_aux a fuel ids src dst hf
  refine ⟨hiff, fun hall => ?_⟩
  rcases hres : a.convertFuel fuel ids src dst with out | _ | _
  · exact ⟨out, rfl⟩
  · obtain ⟨c, hc, hnone⟩ := hiff.mp hres
    obtain ⟨m, hm, hms⟩ := hall c hc
    exact absurd hms (hnone m hm)
  · exact absurd hres hf

/-- Witness for C7 on a one-table catalog with an exact
(source, destination) match. -/
theorem convert_missing_characterization_witness :
    ((Almanac.mk [] [⟨"s", "l", []⟩]).convertFuel 1 [⟨0, 1⟩] "s" "l" = ConvertRes.missing ↔
      ∃ c ∈ (Almanac.mk [] [⟨"s", "l", []⟩]).reachedCats 1 "s" "l",
        ∀ m ∈ (Almanac.mk [] [⟨"s", "l", []⟩]).maps, m.source ≠ c) ∧
    ((∀ c ∈ (Almanac.mk [] [⟨"s", "l", []⟩]).reachedCats 1 "s" "l",
        ∃ m ∈ (Almanac.mk [] [⟨"s", "l", []⟩]).maps, m.source = c) →
      ∃ out, (Almanac.mk [] [⟨"s", "l", []⟩]).convertFuel 1 [⟨0, 1⟩] "s" "l" =
        ConvertRes.ok out) :=
  convert_missing_characterization (Almanac.mk [] [⟨"s", "l", []⟩]) 1 [⟨0, 1⟩] "s" "l"
    (by decide)

/-- When `convert` runs out of fuel the chain visited one category per unit
of fuel, each with an outgoing map. -/
theorem convert_outOfFuel_aux (a : Almanac) :
    ∀ (fuel : Nat) (ids : List SourceIdRange) (src dst : String),
    a.convertFuel fuel ids src dst = ConvertRes.outOfFuel →
    (a.reachedCats fuel src dst).length = fuel ∧
    ∀ c ∈ a.reachedCats fuel src dst, (a.maps.find? (fun m => m.source == c)).isSome := by
  intro fuel
  induction fuel with
  | zero => intro ids src dst _; exact ⟨rfl, by simp [Almanac.reachedCats]⟩
  | succ fuel ih =>
    intro ids src dst hf
    rcases hex : a.maps.find? (fun m => m.source == src && m.destination == dst) with _ | m
    · rcases hsrc : a.maps.find? (fun m => m.source == src) with _ | m2
      · simp [Almanac.convertFuel, hex, hsrc] at hf
      · simp only [Almanac.convertFuel, hex, hsrc] at hf
        obtain ⟨hlen, hall⟩ := ih _ _ _ hf
        simp only [Almanac.reachedCats, hex, hsrc]
        refine ⟨by simp [hlen], ?_⟩
        intro c hc
        rcases List.mem_cons.mp hc with rfl | hc'
        · simp [hsrc]
        · exact hall c hc'
    · simp [Almanac.convertFuel, hex] at hf

/-- A duplicate-free list of categories that all have an outgoing map
injects into the map list (via "first map with this source"), bounding its
length. -/
theorem nodup_sources_le (a : Almanac) (cs : List String) (hnd : cs.Nodup)
    (hall : ∀ c ∈ cs, (a.maps.find? (fun m => m.source == c)).isSome) :
    cs.length ≤ a.maps.length := by
  have hinj : ∀ c c' mp, mp ∈ (fun c => a.maps.find? (fun m => m.source == c)) c →
      mp ∈ (fun c => a.maps.find? (fun m => m.source == c)) c' → c = c' := by
    intro c c' mp h1 h2
    have e1 := List.find?_some (Option.mem_def.mp h1)
    have e2 := List.find?_some (Option.mem_def.mp h2)
    simp only [beq_iff_eq] at e1 e2
    rw [← e1, ← e2]
  have hnd2 : (cs.filterMap (fun c => a.maps.find? (fun m => m.source == c))).Nodup :=
    List.Nodup.filterMap hinj hnd
  have hsub : cs.filterMap (fun c => a.maps.find? (fun m => m.source == c)) ⊆ a.maps := by
    intro x hx
    obtain ⟨c, _, hcx⟩ := List.mem_filterMap.mp hx
    exact List.mem_of_find?_eq_some hcx
  have hlen := filterMap_length_of_isSome (fun c => a.maps.find? (fun m => m.source == c)) cs hall
  calc cs.length
      = (cs.filterMap (fun c => a.maps.find? (fun m => m.source == c))).length := hlen.symm
    _ ≤ a.maps.length := List.Subperm.length_le (List.subperm_of_subset hnd2 hsub)

/-- C9: Termination of chain resolution: when the category chain followed
from the requested source never revisits a category (the acyclic case),
fuel `maps.length + 1` is enough — `convert` finishes on every input
interval list instead of recursing forever. -/
theorem convert_terminates_acyclic (a : Almanac) (ids : List SourceIdRange)
    (src dst : String)
    (h : (a.reachedCats (a.maps.length + 1) src dst).Nodup) :
    a.convertFuel (a.maps.length + 1) ids src dst ≠ ConvertRes.outOfFuel := by
  intro hf
  obtain ⟨hlen, hall⟩ := convert_outOfFuel_aux a (a.maps.length + 1) ids src dst hf
  have := nodup_sources_le a (a.reachedCats (a.maps.length + 1) src dst) h hall
  omega

/-- Witness for C9 on a one-table catalog whose chain is trivially
duplicate-free. -/
theorem convert_terminates_acyclic_witness :
    (Almanac.mk [] [⟨"s", "l", []⟩]).convertFuel 2 [⟨0, 1⟩] "s" "l" ≠
      ConvertRes.outOfFuel :=
  convert_terminates_acyclic (Almanac.mk [] [⟨"s", "l", []⟩]) [⟨0, 1⟩] "s" "l" (by decide)

/-- `splitSepFuel` returns a piece in every branch, so splitting never
yields an empty list. -/
theorem splitSepFuel_ne_nil (sep : List Char) :
    ∀ (fuel : Nat) (acc s : List Char), splitSepFuel sep fuel acc s ≠ [] := by
  intro fuel
  induction fuel with
  | zero => intro acc s; simp [splitSepFuel]
  | succ fuel ih =>
    intro acc s
    cases s with
    | nil => simp [splitSepFuel]
    | cons c rest =>
      simp only [splitSepFuel]
      split_ifs with h
      · simp
      · exact ih _ _

/-- Splitting a string always yields at least one piece (as Rust's
`str::split` does), which is why the `None` arms guarded by
`SeedBlockMissingError` / `MapHeaderMissingError` can never fire. -/
theorem splitSeq_ne_nil (sep s : List Char) : splitSeq sep s ≠ [] :=
  splitSepFuel_ne_nil sep s.length [] s

/-- Errors surfacing from `mapM` over `Except` are errors of the mapped
function. -/
theorem mapM_err {α β : Type} (f : α → Except AOCError β) (P : AOCError → Prop)
    (hf : ∀ x e, f x = Except.error e → P e) :
    ∀ (l : List α) (e : AOCError), l.mapM f = Except.error e → P e := by
  intro l
  induction l with
  | nil =>
    intro e hcon
    simp only [List.mapM_nil] at hcon
    exact Except.noConfusion hcon
  | cons x xs ih =>
    intro e hcon
    rw [List.mapM_cons] at hcon
    rcases hfx : f x with e' | b
    · rw [hfx] at hcon
      simp only [Bind.bind, Except.bind] at hcon
      injection hcon with hcon
      exact hcon ▸ hf x e' hfx
    · rw [hfx] at hcon
      simp only [Bind.bind, Except.bind] at hcon
      rcases hxs : xs.mapM f with e'' | bs
      · rw [hxs] at hcon
        simp only [Bind.bind, Except.bind] at hcon
        injection hcon with hcon
        exact hcon ▸ ih e'' hxs
      · rw [hxs] at hcon
        simp only [Bind.bind, Except.bind, pure, Except.pure] at hcon
        exact Except.noConfusion hcon

/-- `extract_part` fails only with `RangeParseError` or
`ParseNumberError`. -/
theorem extract_part_err (parts : List (List Char)) (id : Nat) (e : AOCError)
    (h : extract_part parts id = Except.error e) :
    e = AOCError.RangeParseError ∨ e = AOCError.ParseNumberError := by
  unfold extract_part at h
  split at h
  · injection h with h; exact Or.inl h.symm
  · split at h
    · exact Except.noConfusion h
    · injection h with h; exact Or.inr h.symm

/-- Rule parsing fails only with `RangeParseError` or `ParseNumberError`. -/
theorem range_fromStr_err (s : List Char) (e : AOCError)
    (h : Range.fromStr s = Except.error e) :
    e = AOCError.RangeParseError ∨ e = AOCError.ParseNumberError := by
  unfold Range.fromStr at h
  simp only [bind, Except.bind] at h
  rcases h0 : extract_part (splitNChar 3 ' ' (trimChars s)) 0 with e0 | d
  · rw [h0] at h; injection h with h; exact h ▸ extract_part_err _ _ _ h0
  · rw [h0] at h
    rcases h1 : extract_part (splitNChar 3 ' ' (trimChars s)) 1 with e1 | sst
    · rw [h1] at h; injection h with h; exact h ▸ extract_part_err _ _ _ h1
    · rw [h1] at h
      rcases h2 : extract_part (splitNChar 3 ' ' (trimChars s)) 2 with e2 | ln
      · rw [h2] at h; injection h with h; exact h ▸ extract_part_err _ _ _ h2
      · rw [h2] at h; exact Except.noConfusion h

/-- Table parsing never fails with the "missing" error variants: its header
line always exists (splitting is never empty), so failures are
`MapHeaderParseError` or rule-parsing errors. -/
theorem categoryMap_fromStr_err (s : List Char) (e : AOCError)
    (h : CategoryMap.fromStr s = Except.error e) :
    e ≠ AOCError.MapHeaderMissingError ∧ e ≠ AOCError.SeedBlockMissingError := by
  unfold CategoryMap.fromStr at h
  rcases hsp : splitSeq ['
'] s with _ | ⟨header, lines⟩
  · exact absurd hsp (splitSeq_ne_nil _ _)
  · simp only [hsp] at h
    rcases hoc : splitOnceChar ' ' header with _ | ⟨mapping_info, restp⟩
    · simp only [hoc] at h
      injection h with h; subst h; exact ⟨by simp, by simp⟩
    · simp only [hoc] at h
      rcases hhd : (splitNChar 3 '-' mapping_info).head? with _ | source <;>
        rcases hgl : (splitNChar 3 '-' mapping_info).getLast? with _ | destination <;>
        simp only [hhd, hgl] at h
      · injection h with h; subst h; exact ⟨by simp, by simp⟩
      · injection h with h; subst h; exact ⟨by simp, by simp⟩
      · injection h with h; subst h; exact ⟨by simp, by simp⟩
      · simp only [bind, Except.bind] at h
        rcases hm : lines.mapM Range.fromStr with e' | rs
        · rw [hm] at h
          injection h with h
          subst h
          have := mapM_err Range.fromStr
            (fun e => e = AOCError.RangeParseError ∨ e = AOCError.ParseNumberError)
            range_fromStr_err lines e' hm
          rcases this with rfl | rfl <;> exact ⟨by simp, by simp⟩
        · rw [hm] at h; exact Except.noConfusion h

/-- Almanac parsing never fails with `SeedBlockMissingError`: the seed
block always exists because splitting is never empty. -/
theorem almanac_fromStr_err (s : List Char) (e : AOCError)
    (h : Almanac.fromStr s = Except.error e) :
    e ≠ AOCError.SeedBlockMissingError := by
  unfold Almanac.fromStr at h
  rcases hsp : splitSeq ['
', '
'] s with _ | ⟨seed_string, blocks⟩
  · exact absurd hsp (splitSeq_ne_nil _ _)
  · simp only [hsp] at h
    simp only [bind, Except.bind] at h
    rcases hs : ((splitSeq [' '] (trimChars seed_string)).drop 1).mapM (fun w =>
        match parseNatChars w with
        | some n => Except.ok n
        | none => Except.error AOCError.ParseNumberError) with e' | seeds
    · rw [hs] at h
      injection h with h
      subst h
      have he' := mapM_err (fun w =>
          match parseNatChars w with
          | some n => Except.ok n
          | none => Except.error AOCError.ParseNumberError)
        (fun e => e = AOCError.ParseNumberError)
        (fun w e hw => by
          rcases hpn : parseNatChars w with _ | n <;> simp only [hpn] at hw
          · injection hw with hw; exact hw.symm
          · exact Except.noConfusion hw) _ e' hs
      subst he'; simp
    · rw [hs] at h
      rcases hmm : blocks.mapM CategoryMap.fromStr with e'' | maps
      · rw [hmm] at h
        injection h with h
        subst h
        exact (mapM_err CategoryMap.fromStr
          (fun e => e ≠ AOCError.MapHeaderMissingError ∧ e ≠ AOCError.SeedBlockMissingError)
          categoryMap_fromStr_err blocks e'' hmm).2
      · rw [hmm] at h; exact Except.noConfusion h

/-- C8 counterexample: the empty input has no seed block, yet parsing
succeeds with an empty seed list instead of signalling an error, and a map
block with no header line signals `MapHeaderParseError`, not
`MapHeaderMissingError`. -/
theorem parse_missing_counterexample :
    Almanac.fromStr [] = Except.ok ⟨[], []⟩ ∧
    CategoryMap.fromStr [] = Except.error AOCError.MapHeaderParseError :=
  ⟨rfl, rfl⟩

/-- C8 (amended): the `SeedBlockMissingError` and `MapHeaderMissingError`
variants are unreachable — string splitting always yields at least one
piece, so an absent seed block parses (emptily) and an absent map header
surfaces as `MapHeaderParseError` instead. -/
theorem parse_never_missing_variants (s t : List Char) :
    Almanac.fromStr s ≠ Except.error AOCError.SeedBlockMissingError ∧
    CategoryMap.fromStr t ≠ Except.error AOCError.MapHeaderMissingError :=
  ⟨fun h => almanac_fromStr_err s _ h rfl,
   fun h => (categoryMap_fromStr_err t _ h).1 rfl⟩

/-- C10: `process_part2` seed pairing: an odd-length seed list hits the
`panic!("Unexpected chunk size")` arm (modelled as `none`), while an
even-length list pairs each `(seeds[2i], seeds[2i+1])` into the interval
with that start and length. -/
theorem seedRanges_pairing (seeds : List Nat) :
    (seeds.length % 2 = 1 → seedRangesPart2 seeds = none) ∧
    (seeds.length % 2 = 0 → ∃ l, seedRangesPart2 seeds = some l ∧
      l.length = seeds.length / 2 ∧
      ∀ i < l.length, l.getD i ⟨0, 0⟩ =
        ⟨seeds.getD (2 * i) 0, seeds.getD (2 * i + 1) 0⟩) := by
  induction seeds using chunksTwo.induct with
  | case1 =>
    exact ⟨fun h => by simp at h, fun _ => ⟨[], rfl, by simp, by simp⟩⟩
  | case2 a =>
    exact ⟨fun _ => rfl, fun h => by simp at h⟩
  | case3 a b rest ih =>
    constructor
    · intro hodd
      have hro : rest.length % 2 = 1 := by simp at hodd; omega
      have hrest := ih.1 hro
      simp only [seedRangesPart2] at hrest ⊢
      rw [chunksTwo, List.mapM_cons, hrest]
      rfl
    · intro heven
      have hre : rest.length % 2 = 0 := by simp at heven; omega
      obtain ⟨l', hsome, hlen, hidx⟩ := ih.2 hre
      simp only [seedRangesPart2] at hsome
      refine ⟨⟨a, b⟩ :: l', ?_, ?_, ?_⟩
      · simp only [seedRangesPart2]
        rw [chunksTwo, List.mapM_cons, hsome]
        rfl
      · simp only [List.length_cons]
        simp only [List.length_cons] at heven ⊢
        omega
      · intro i hi
        cases i with
        | zero => simp [List.getD]
        | succ i =>
          have hi' : i < l'.length := by simpa using hi
          have h2 : 2 * (i + 1) = 2 * i + 1 + 1 := by omega
          rw [h2]
          simp only [List.getD_cons_succ]
          exact hidx i hi'

end Day05
